import Mathlib

/-!
Shallow embedding of the applied-filter reconciliation and label-resolution
core of `src/components/ResourceList/components/FilterControl/FilterControl.tsx`
(nozzlegear/polaris), together with theorems settling the spec claims.

Modelling conventions:
* TypeScript optional string fields become `Option String`; JavaScript string
  truthiness (`if (label)`, `if (minKey || maxKey)`) is modelled by
  `strTruthy`, which is false on `none` and on `some ""`.
* The injected i18n capability (`intl.translate`, `intl.translationKeyExists`)
  is a parameter structure `Intl`; translation parameters are passed as an
  association list of string pairs, matching the object literals in the source.
* The host date facilities (`new Date(s)` validity and
  `new Date(s).toLocaleDateString()`) are a parameter structure `DateEnv`:
  `isValidDate s` models `!isNaN(new Date(s).getTime())` and
  `toLocaleDateString s` models `new Date(s).toLocaleDateString()`.
* Collections are Lean `List`s; the JavaScript array operations used by the
  source (`find`, `findIndex`, `slice`/spread concatenation, spread copy)
  are mapped to `List.find?`, `List.findIdx?`, `take`/`drop`/`++`.
-/

namespace PolarisFilterControl

/-- JavaScript truthiness of an optional string: `undefined` and `""` are
falsy, every other string is truthy. -/
def strTruthy : Option String → Bool
  | none => false
  | some s => s ≠ ""

/-- An applied filter (`AppliedFilter` in `types.ts`): `key` and `value` are
required strings, `label` is an optional override. -/
structure AppliedFilter where
  key : String
  value : String
  label : Option String := none
deriving DecidableEq, Repr

/-- A filter option of a `Select` definition: either a bare string (value and
label coincide) or a structured `{value, label}` pair. -/
inductive FilterOption where
  | plain (s : String)
  | withLabel (value : String) (label : String)
deriving DecidableEq, Repr

/-- The value of a filter option, as read by
`typeof option === 'string' ? option : option.value`. -/
def FilterOption.valueOf : FilterOption → String
  | .plain s => s
  | .withLabel v _ => v

/-- The label of a filter option, as read by
`typeof option === 'string' ? option : option.label`. -/
def FilterOption.labelOf : FilterOption → String
  | .plain s => s
  | .withLabel _ l => l

/-- The discriminant `FilterType` of a filter definition: `Select`,
`DateSelector`, or any other kind (all other kinds behave alike in this
core). -/
inductive FilterType where
  | Select
  | DateSelector
  | Other
deriving DecidableEq, Repr

/-- A filter definition (`Filter` in `types.ts`): the TypeScript discriminated
union is flattened into one structure; `options` is only populated for
`Select`, `minKey`/`maxKey` only for `DateSelector`, mirroring the fact that
the source reads the absent fields as `undefined`. -/
structure Filter where
  key : String
  label : String
  operatorText : Option String := none
  type : FilterType
  options : List FilterOption := []
  minKey : Option String := none
  maxKey : Option String := none
deriving DecidableEq, Repr

/-- The injected i18n capability: `translate key params` and
`translationKeyExists key`. -/
structure Intl where
  translate : String → List (String × String) → String
  translationKeyExists : String → Bool

/-- The host date environment: `isValidDate s` models
`!isNaN(new Date(s).getTime())`; `toLocaleDateString s` models
`new Date(s).toLocaleDateString()` on an input `s` that parses. -/
structure DateEnv where
  isValidDate : String → Bool
  toLocaleDateString : String → String

/-- The global dash-to-slash replacement applied by the source before the
second date parse: replace every dash with a slash. -/
def dashesToSlashes (s : String) : String :=
  s.map fun c => if c = '-' then '/' else c

/-- `formatDateForLabelDisplay` (FilterControl.tsx lines 248-254): if the raw
string does not parse as a date it is returned unchanged; otherwise the
dash-to-slash substitution is applied and the result is rendered as a locale
date string. -/
def formatDateForLabelDisplay (env : DateEnv) (date : String) : String :=
  if env.isValidDate date then env.toLocaleDateString (dashesToSlashes date)
  else date

/-- `idFromFilter` (FilterControl.tsx lines 244-246): the composite identity
`key + "-" + value`. -/
def idFromFilter (appliedFilter : AppliedFilter) : String :=
  appliedFilter.key ++ "-" ++ appliedFilter.value

/-- `handleAddFilter` (FilterControl.tsx lines 106-126), restricted to its
collection transformation: look for an existing entry with the same composite
id; when found return the collection unchanged, otherwise append the new
filter at the end. -/
def handleAddFilter (appliedFilters : List AppliedFilter)
    (newFilter : AppliedFilter) : List AppliedFilter :=
  match appliedFilters.find?
      (fun appliedFilter => idFromFilter appliedFilter == idFromFilter newFilter) with
  | some _ => appliedFilters
  | none => appliedFilters ++ [newFilter]

/-- `handleRemoveFilter` (FilterControl.tsx lines 135-155), restricted to its
collection transformation: `findIndex` of the first entry with the given id;
when found, `slice(0, i) ++ slice(i+1, length)`; otherwise a spread copy of
the collection. -/
def handleRemoveFilter (appliedFilters : List AppliedFilter)
    (filterId : String) : List AppliedFilter :=
  match appliedFilters.findIdx?
      (fun appliedFilter => idFromFilter appliedFilter == filterId) with
  | some foundIndex =>
      appliedFilters.take foundIndex ++
        appliedFilters.drop (foundIndex + 1)
  | none => appliedFilters

/-- The catalog-match predicate inlined in `getFilterLabel`
(FilterControl.tsx lines 166-174): when `minKey || maxKey` is truthy the
definition matches on `key`, `minKey` or `maxKey`; otherwise only on `key`. -/
def filterMatches (key : String) (filter : Filter) : Bool :=
  if strTruthy filter.minKey || strTruthy filter.maxKey then
    filter.key == key || filter.minKey == some key || filter.maxKey == some key
  else
    filter.key == key

/-- The catalog lookup `filters.find(...)` of `getFilterLabel`
(FilterControl.tsx lines 166-174): first match in catalog order, `none` when
no definition matches. -/
def findDefinition (filters : List Filter) (key : String) : Option Filter :=
  filters.find? (filterMatches key)

/-- `findFilterLabelByType` (FilterControl.tsx lines 185-241): the
type-specific label fragment. `Select` scans the options for one whose value
equals the applied value and returns its label; `DateSelector` tries, in
order, the exact-key case (translation-key lookup keyed by the value), the
`maxKey` case ("on or before" with the formatted date), the `minKey` case
("on or after" with the formatted date); everything else falls through to
the raw applied value. -/
def findFilterLabelByType (intl : Intl) (env : DateEnv) (filter : Filter)
    (appliedFilter : AppliedFilter) : String :=
  let appliedFilterValue := appliedFilter.value
  let foundFilterOption : Option FilterOption :=
    if filter.type = FilterType.Select then
      filter.options.find? (fun option => option.valueOf == appliedFilterValue)
    else none
  match foundFilterOption with
  | some option => option.labelOf
  | none =>
      if filter.type = FilterType.DateSelector then
        if filter.key = appliedFilter.key then
          let filterLabelKey :=
            "Polaris.ResourceList.DateSelector.FilterLabelForValue." ++
              appliedFilter.value
          if intl.translationKeyExists filterLabelKey then
            intl.translate filterLabelKey []
          else appliedFilter.value
        else if some appliedFilter.key == filter.maxKey then
          intl.translate
            "Polaris.ResourceList.DateSelector.FilterLabelForValue.on_or_before"
            [("date", formatDateForLabelDisplay env appliedFilter.value)]
        else if some appliedFilter.key == filter.minKey then
          intl.translate
            "Polaris.ResourceList.DateSelector.FilterLabelForValue.on_or_after"
            [("date", formatDateForLabelDisplay env appliedFilter.value)]
        else appliedFilterValue
      else appliedFilterValue

/-- The non-override branch of `getFilterLabel` (FilterControl.tsx lines
164-182): look the key up in the catalog; when absent return the raw value;
when present join `[filter.label, filter.operatorText, typeSpecificLabel]`
with single spaces (an absent `operatorText` joins as the empty string). -/
def getFilterLabelComputed (intl : Intl) (env : DateEnv)
    (filters : List Filter) (appliedFilter : AppliedFilter) : String :=
  match findDefinition filters appliedFilter.key with
  | none => appliedFilter.value
  | some filter =>
      let filterLabelByType := findFilterLabelByType intl env filter appliedFilter
      String.intercalate " "
        [filter.label, filter.operatorText.getD "", filterLabelByType]

/-- `getFilterLabel` (FilterControl.tsx lines 157-183): a truthy `label`
override is returned verbatim; otherwise the label is computed from the
catalog. -/
def getFilterLabel (intl : Intl) (env : DateEnv) (filters : List Filter)
    (appliedFilter : AppliedFilter) : String :=
  match appliedFilter.label with
  | some l => if l = "" then getFilterLabelComputed intl env filters appliedFilter else l
  | none => getFilterLabelComputed intl env filters appliedFilter

/-- A sample i18n capability for spot checks: `translate` renders the key and
its parameters, every translation key exists. -/
def sampleIntl : Intl :=
  ⟨fun key params =>
      String.join (key :: params.map fun p => "|" ++ p.1 ++ "=" ++ p.2),
    fun _ => true⟩

/-- A sample date environment for spot checks: only `"2020-01-15"` counts as
a valid date, and rendering brackets its input. -/
def sampleEnv : DateEnv :=
  ⟨fun s => s = "2020-01-15", fun s => "[" ++ s ++ "]"⟩

/-- A sample `DateSelector` catalog definition with `minKey`/`maxKey`
range edges, used by spot-check theorems. -/
def dDateFilter : Filter :=
  ⟨"created", "Created", none, FilterType.DateSelector, [],
    some "created_min", some "created_max"⟩

/-! ## Set-manager helper lemmas -/

/-- When some entry of the collection already carries the new filter's
composite id, `handleAddFilter` returns the collection unchanged. -/
theorem handleAddFilter_of_found {appliedFilters : List AppliedFilter}
    {newFilter : AppliedFilter}
    (h : ∃ g ∈ appliedFilters, idFromFilter g = idFromFilter newFilter) :
    handleAddFilter appliedFilters newFilter = appliedFilters := by
  obtain ⟨g, hg, hid⟩ := h
  unfold handleAddFilter
  cases hfind : appliedFilters.find?
      (fun appliedFilter => idFromFilter appliedFilter == idFromFilter newFilter) with
  | some _ => rfl
  | none =>
    rw [List.find?_eq_none] at hfind
    have := hfind g hg
    simp [hid] at this

/-- When no entry of the collection carries the new filter's composite id,
`handleAddFilter` appends the new filter at the end. -/
theorem handleAddFilter_of_fresh {appliedFilters : List AppliedFilter}
    {newFilter : AppliedFilter}
    (h : ∀ g ∈ appliedFilters, idFromFilter g ≠ idFromFilter newFilter) :
    handleAddFilter appliedFilters newFilter = appliedFilters ++ [newFilter] := by
  unfold handleAddFilter
  have hfind : appliedFilters.find?
      (fun appliedFilter => idFromFilter appliedFilter == idFromFilter newFilter) = none := by
    rw [List.find?_eq_none]
    intro x hx
    simpa using h x hx
  rw [hfind]

/-- When no entry of the collection carries the searched id,
`handleRemoveFilter` returns the collection with the same elements. -/
theorem handleRemoveFilter_of_fresh {appliedFilters : List AppliedFilter}
    {filterId : String}
    (h : ∀ g ∈ appliedFilters, idFromFilter g ≠ filterId) :
    handleRemoveFilter appliedFilters filterId = appliedFilters := by
  unfold handleRemoveFilter
  have hfind : appliedFilters.findIdx?
      (fun appliedFilter => idFromFilter appliedFilter == filterId) = none := by
    rw [List.findIdx?_eq_none_iff]
    intro x hx
    simpa using h x hx
  rw [hfind]

/-- `handleRemoveFilter` on a collection split as `l₁ ++ g :: l₂`, where `g`
is the first entry carrying the searched id, excises exactly `g`. -/
theorem handleRemoveFilter_first {l₁ l₂ : List AppliedFilter}
    {g : AppliedFilter} {filterId : String}
    (hg : idFromFilter g = filterId)
    (h₁ : ∀ x ∈ l₁, idFromFilter x ≠ filterId) :
    handleRemoveFilter (l₁ ++ g :: l₂) filterId = l₁ ++ l₂ := by
  have hnone : l₁.findIdx? (fun x => idFromFilter x == filterId) = none := by
    rw [List.findIdx?_eq_none_iff]
    intro x hx
    simpa using h₁ x hx
  have hcons : (g :: l₂).findIdx? (fun x => idFromFilter x == filterId) = some 0 := by
    simp [List.findIdx?_cons, hg]
  have hfind : (l₁ ++ g :: l₂).findIdx?
      (fun x => idFromFilter x == filterId) = some l₁.length := by
    rw [List.findIdx?_append, hnone, hcons]
    simp
  unfold handleRemoveFilter
  rw [hfind]
  show (l₁ ++ g :: l₂).take l₁.length ++ (l₁ ++ g :: l₂).drop (l₁.length + 1) =
    l₁ ++ l₂
  have hdrop : (l₁ ++ g :: l₂).drop (l₁.length + 1) = l₂ := by
    have hsplit : l₁ ++ g :: l₂ = (l₁ ++ [g]) ++ l₂ := by simp
    rw [hsplit]
    exact List.drop_left' (by simp)
  rw [List.take_left, hdrop]

/-- The first entry of a list satisfying a decidable predicate yields a split
`l₁ ++ g :: l₂` with nothing in `l₁` satisfying the predicate. -/
theorem exists_first_split {α : Type} (p : α → Prop) [DecidablePred p] :
    ∀ (C : List α), (∃ g ∈ C, p g) →
      ∃ l₁ g l₂, C = l₁ ++ g :: l₂ ∧ p g ∧ ∀ x ∈ l₁, ¬ p x
  | [], h => absurd h (by simp)
  | a :: C, h => by
    by_cases ha : p a
    · exact ⟨[], a, C, rfl, ha, by simp⟩
    · obtain ⟨g, hg, hpg⟩ := h
      rcases List.mem_cons.mp hg with rfl | hg'
      · exact absurd hpg ha
      · obtain ⟨l₁, g', l₂, rfl, hpg', hl₁⟩ := exists_first_split p C ⟨g, hg', hpg⟩
        refine ⟨a :: l₁, g', l₂, rfl, hpg', ?_⟩
        intro x hx
        rcases List.mem_cons.mp hx with rfl | hx'
        · exact ha
        · exact hl₁ x hx'

/-! ## Label-resolution helper lemmas -/

/-- When the label override is falsy (absent or empty), `getFilterLabel`
computes the label from the catalog. -/
theorem getFilterLabel_no_override {intl : Intl} {env : DateEnv}
    {filters : List Filter} {f : AppliedFilter}
    (hover : strTruthy f.label = false) :
    getFilterLabel intl env filters f =
      getFilterLabelComputed intl env filters f := by
  unfold getFilterLabel
  cases hl : f.label with
  | none => rfl
  | some l =>
    rw [hl] at hover
    simp [strTruthy] at hover
    simp [hover]

/-- `String.intercalate " "` on a three-element list concatenates the
fragments with single separating spaces, keeping empty fragments. -/
theorem intercalate_three (a b c : String) :
    String.intercalate " " [a, b, c] = a ++ " " ++ b ++ " " ++ c := rfl

/-! ## Claim theorems -/

/-- C1: for every applied-filter collection `C` and applied filter `f`, if
some entry of `C` has the same composite id as `f`, then `handleAddFilter C f`
returns `C` unchanged (first occupant wins, `f` is dropped); otherwise it
returns `C` with `f` appended as the last element, all existing entries
keeping their relative order. -/
theorem addFilter_dedups_or_appends (C : List AppliedFilter) (f : AppliedFilter) :
    ((∃ g ∈ C, idFromFilter g = idFromFilter f) → handleAddFilter C f = C) ∧
    ((∀ g ∈ C, idFromFilter g ≠ idFromFilter f) →
      handleAddFilter C f = C ++ [f]) :=
  ⟨handleAddFilter_of_found, handleAddFilter_of_fresh⟩

/-- Witness for C1: a duplicate-id add is a no-op and a fresh-id add appends,
checked on concrete one-element collections. -/
theorem addFilter_dedups_or_appends_witness :
    handleAddFilter [⟨"a", "1", none⟩] ⟨"a", "1", none⟩ = [⟨"a", "1", none⟩] ∧
    handleAddFilter [⟨"a", "1", none⟩] ⟨"b", "2", none⟩ =
      [⟨"a", "1", none⟩, ⟨"b", "2", none⟩] :=
  ⟨(addFilter_dedups_or_appends [⟨"a", "1", none⟩] ⟨"a", "1", none⟩).1
      ⟨⟨"a", "1", none⟩, by simp, rfl⟩,
    (addFilter_dedups_or_appends [⟨"a", "1", none⟩] ⟨"b", "2", none⟩).2
      (by decide)⟩

/-- C2: for every collection `C` and string `filterId`, if some entry of `C`
has computed id `filterId`, then `handleRemoveFilter C filterId` excises
exactly the first such entry, keeping all other entries in their original
relative order (even when several entries share the id); if no entry
matches, it returns a collection with the same elements in the same order. -/
theorem removeFilter_excises_first_or_copies (C : List AppliedFilter)
    (filterId : String) :
    ((∃ g ∈ C, idFromFilter g = filterId) →
      ∃ l₁ g l₂, C = l₁ ++ g :: l₂ ∧ idFromFilter g = filterId ∧
        (∀ x ∈ l₁, idFromFilter x ≠ filterId) ∧
        handleRemoveFilter C filterId = l₁ ++ l₂) ∧
    ((∀ g ∈ C, idFromFilter g ≠ filterId) →
      handleRemoveFilter C filterId = C) := by
  constructor
  · intro h
    obtain ⟨l₁, g, l₂, rfl, hpg, hl₁⟩ :=
      exists_first_split (fun x => idFromFilter x = filterId) C h
    exact ⟨l₁, g, l₂, rfl, hpg, hl₁, handleRemoveFilter_first hpg hl₁⟩
  · exact handleRemoveFilter_of_fresh

/-- Witness for C2: removing an id absent from a concrete one-element
collection returns the same elements. -/
theorem removeFilter_excises_first_or_copies_witness :
    handleRemoveFilter [⟨"a", "1", none⟩] "zzz" = [⟨"a", "1", none⟩] :=
  (removeFilter_excises_first_or_copies [⟨"a", "1", none⟩] "zzz").2 (by decide)

/-- C3: remove is a left-inverse of add for fresh ids: when no entry of `C`
carries `idFromFilter f`, removing `idFromFilter f` from
`handleAddFilter C f` gives back `C`, element for element. -/
theorem removeFilter_leftInverse_addFilter (C : List AppliedFilter)
    (f : AppliedFilter)
    (h : ∀ g ∈ C, idFromFilter g ≠ idFromFilter f) :
    handleRemoveFilter (handleAddFilter C f) (idFromFilter f) = C := by
  rw [handleAddFilter_of_fresh h]
  have hmain := @handleRemoveFilter_first C [] f (idFromFilter f) rfl h
  simpa using hmain

/-- Witness for C3: adding a fresh filter to a concrete collection and then
removing its id restores the collection. -/
theorem removeFilter_leftInverse_addFilter_witness :
    handleRemoveFilter (handleAddFilter [⟨"a", "1", none⟩] ⟨"b", "2", none⟩)
      (idFromFilter ⟨"b", "2", none⟩) = [⟨"a", "1", none⟩] :=
  removeFilter_leftInverse_addFilter [⟨"a", "1", none⟩] ⟨"b", "2", none⟩
    (by decide)

/-- C10: the composite id is not injective on (key, value) pairs: two applied
filters with different keys and different values can share one id (key `"a"`
with value `"b-c"` versus key `"a-b"` with value `"c"`), and adding the second
to any collection containing the first is a silent no-op. -/
theorem idFromFilter_not_injective :
    (∃ f g : AppliedFilter, f.key ≠ g.key ∧ f.value ≠ g.value ∧
      idFromFilter f = idFromFilter g) ∧
    ∀ (C : List AppliedFilter) (f g : AppliedFilter),
      idFromFilter f = idFromFilter g → f ∈ C → handleAddFilter C g = C := by
  constructor
  · exact ⟨⟨"a", "b-c", none⟩, ⟨"a-b", "c", none⟩, by decide, by decide, by decide⟩
  · intro C f g hid hf
    exact handleAddFilter_of_found ⟨f, hf, hid⟩

/-- Witness for C10: with the colliding pair in place, the add of the second
filter is dropped on a concrete collection. -/
theorem idFromFilter_not_injective_witness :
    handleAddFilter [⟨"a", "b-c", none⟩] ⟨"a-b", "c", none⟩ =
      [⟨"a", "b-c", none⟩] :=
  idFromFilter_not_injective.2 [⟨"a", "b-c", none⟩] ⟨"a", "b-c", none⟩
    ⟨"a-b", "c", none⟩ (by decide) (by decide)

/-- C4: for an applied filter resolved against a matched `DateSelector`
definition (the situation reached only with no label override), the
type-specific label tests three sub-cases in this fixed priority order: the
exact-key case applies whenever `filter.key` equals the applied filter's key
(even if the key also equals `minKey` or `maxKey`); otherwise the `maxKey`
case yields the translated on-or-before phrase with parameter
`date = formatDateForLabelDisplay value`; otherwise the `minKey` case yields
the translated on-or-after phrase with the same date formatting; otherwise
the raw value is returned. -/
theorem dateSelector_label_priority (intl : Intl) (env : DateEnv)
    (filter : Filter) (f : AppliedFilter)
    (hty : filter.type = FilterType.DateSelector) :
    (filter.key = f.key →
      findFilterLabelByType intl env filter f =
        (if intl.translationKeyExists
            ("Polaris.ResourceList.DateSelector.FilterLabelForValue." ++
              f.value) then
          intl.translate
            ("Polaris.ResourceList.DateSelector.FilterLabelForValue." ++
              f.value) []
        else f.value)) ∧
    (filter.key ≠ f.key → filter.maxKey = some f.key →
      findFilterLabelByType intl env filter f =
        intl.translate
          "Polaris.ResourceList.DateSelector.FilterLabelForValue.on_or_before"
          [("date", formatDateForLabelDisplay env f.value)]) ∧
    (filter.key ≠ f.key → filter.maxKey ≠ some f.key →
      filter.minKey = some f.key →
      findFilterLabelByType intl env filter f =
        intl.translate
          "Polaris.ResourceList.DateSelector.FilterLabelForValue.on_or_after"
          [("date", formatDateForLabelDisplay env f.value)]) ∧
    (filter.key ≠ f.key → filter.maxKey ≠ some f.key →
      filter.minKey ≠ some f.key →
      findFilterLabelByType intl env filter f = f.value) := by
  refine ⟨?_, ?_, ?_, ?_⟩
  · intro hkey
    simp [findFilterLabelByType, hty, hkey]
  · intro hkey hmax
    simp [findFilterLabelByType, hty, hkey, hmax]
  · intro hkey hmax hmin
    simp [findFilterLabelByType, hty, hkey, Ne.symm hmax, hmin]
  · intro hkey hmax hmin
    simp [findFilterLabelByType, hty, hkey, Ne.symm hmax, Ne.symm hmin]

/-- Witness for C4: the `maxKey` sub-case on a concrete range-edge filter
produces the on-or-before phrase with the formatted date. -/
theorem dateSelector_label_priority_witness :
    findFilterLabelByType sampleIntl sampleEnv dDateFilter
      ⟨"created_max", "2020-01-15", none⟩ =
      sampleIntl.translate
        "Polaris.ResourceList.DateSelector.FilterLabelForValue.on_or_before"
        [("date", formatDateForLabelDisplay sampleEnv "2020-01-15")] :=
  (dateSelector_label_priority sampleIntl sampleEnv dDateFilter
      ⟨"created_max", "2020-01-15", none⟩ rfl).2.1 (by decide) rfl

/-- C5: `findDefinition` returns the first definition in catalog order that
matches, where a definition whose `minKey` or `maxKey` is truthy matches
when its `key`, `minKey` or `maxKey` equals the searched key, and a
definition without truthy `minKey`/`maxKey` matches only on `key`; when no
definition matches the result is `none`, a non-exceptional outcome. -/
theorem findDefinition_first_match (catalog : List Filter) (key : String) :
    (∀ f : Filter,
      (strTruthy f.minKey = true ∨ strTruthy f.maxKey = true) →
      (filterMatches key f = true ↔
        (f.key = key ∨ f.minKey = some key ∨ f.maxKey = some key))) ∧
    (∀ f : Filter, strTruthy f.minKey = false → strTruthy f.maxKey = false →
      (filterMatches key f = true ↔ f.key = key)) ∧
    (∀ f, findDefinition catalog key = some f →
      filterMatches key f = true ∧
      ∃ l₁ l₂, catalog = l₁ ++ f :: l₂ ∧
        ∀ g ∈ l₁, filterMatches key g = false) ∧
    (findDefinition catalog key = none ↔
      ∀ f ∈ catalog, filterMatches key f = false) := by
  refine ⟨?_, ?_, ?_, ?_⟩
  · intro f h
    rcases h with h | h <;> simp [filterMatches, h, or_assoc]
  · intro f h1 h2
    simp [filterMatches, h1, h2]
  · intro f hf
    unfold findDefinition at hf
    rw [List.find?_eq_some] at hf
    obtain ⟨hp, l₁, l₂, rfl, hall⟩ := hf
    refine ⟨hp, l₁, l₂, rfl, ?_⟩
    intro g hg
    simpa using hall g hg
  · simp [findDefinition, List.find?_eq_none]

/-- Witness for C5: a key absent from a concrete one-definition catalog
yields `none`. -/
theorem findDefinition_first_match_witness :
    findDefinition [dDateFilter] "missing" = none :=
  (findDefinition_first_match [dDateFilter] "missing").2.2.2.mpr (by decide)

/-- C6: a present non-empty label override is returned verbatim by
`getFilterLabel`, regardless of catalog, translation capability, key and
value. -/
theorem label_override_shortCircuits (intl : Intl) (env : DateEnv)
    (filters : List Filter) (f : AppliedFilter) (l : String)
    (hl : f.label = some l) (hne : l ≠ "") :
    getFilterLabel intl env filters f = l := by
  unfold getFilterLabel
  rw [hl]
  simp [hne]

/-- Witness for C6: the override `"Custom"` survives a catalog that would
otherwise resolve the key. -/
theorem label_override_shortCircuits_witness :
    getFilterLabel sampleIntl sampleEnv [dDateFilter]
      ⟨"created", "2020-01-15", some "Custom"⟩ = "Custom" :=
  label_override_shortCircuits sampleIntl sampleEnv [dDateFilter]
    ⟨"created", "2020-01-15", some "Custom"⟩ "Custom" rfl (by decide)

/-- C7: with no label override and a matched definition, the label is
exactly the three fragments `definition.label`, `operatorText` (empty string
when absent) and the type-specific label joined with single spaces; in
particular an absent `operatorText` leaves a double space between
`definition.label` and the type-specific fragment. -/
theorem matched_label_join (intl : Intl) (env : DateEnv)
    (filters : List Filter) (f : AppliedFilter) (filter : Filter)
    (hover : strTruthy f.label = false)
    (hfind : findDefinition filters f.key = some filter) :
    getFilterLabel intl env filters f =
      filter.label ++ " " ++ filter.operatorText.getD "" ++ " " ++
        findFilterLabelByType intl env filter f ∧
    (filter.operatorText = none →
      getFilterLabel intl env filters f =
        filter.label ++ "  " ++ findFilterLabelByType intl env filter f) := by
  have hmain : getFilterLabel intl env filters f =
      filter.label ++ " " ++ filter.operatorText.getD "" ++ " " ++
        findFilterLabelByType intl env filter f := by
    rw [getFilterLabel_no_override hover]
    unfold getFilterLabelComputed
    rw [hfind]
    exact intercalate_three _ _ _
  refine ⟨hmain, ?_⟩
  intro hnone
  rw [hmain, hnone]
  show filter.label ++ " " ++ "" ++ " " ++ _ = _
  rw [String.append_empty, String.append_assoc filter.label " " " "]
  have hsp : (" " : String) ++ " " = "  " := by decide
  rw [hsp]

/-- Witness for C7: a concrete matched `DateSelector` definition without
`operatorText` renders with the double space. -/
theorem matched_label_join_witness :
    getFilterLabel sampleIntl sampleEnv [dDateFilter]
      ⟨"created_max", "2020-01-15", none⟩ =
      "Created" ++ "  " ++ findFilterLabelByType sampleIntl sampleEnv
        dDateFilter ⟨"created_max", "2020-01-15", none⟩ :=
  (matched_label_join sampleIntl sampleEnv [dDateFilter]
      ⟨"created_max", "2020-01-15", none⟩ dDateFilter rfl (by decide)).2 rfl

/-- C8: `getFilterLabel` never fails on an unmatched key: with no label
override and no matching definition in the catalog, it returns the applied
filter's raw value. -/
theorem unmatched_key_falls_back (intl : Intl) (env : DateEnv)
    (filters : List Filter) (f : AppliedFilter)
    (hover : strTruthy f.label = false)
    (hmatch : ∀ d ∈ filters, filterMatches f.key d = false) :
    getFilterLabel intl env filters f = f.value := by
  rw [getFilterLabel_no_override hover]
  unfold getFilterLabelComputed
  have hnone : findDefinition filters f.key = none := by
    unfold findDefinition
    rw [List.find?_eq_none]
    intro d hd
    simp [hmatch d hd]
  rw [hnone]

/-- Witness for C8: a key matching nothing in a concrete catalog resolves to
the raw value. -/
theorem unmatched_key_falls_back_witness :
    getFilterLabel sampleIntl sampleEnv [dDateFilter]
      ⟨"orders", "25", none⟩ = "25" :=
  unmatched_key_falls_back sampleIntl sampleEnv [dDateFilter]
    ⟨"orders", "25", none⟩ rfl (by decide)

/-- C9: `formatDateForLabelDisplay` is total and degrades gracefully: a raw
string failing the initial parse is returned unchanged, with no
reformatting; a raw string that parses is rendered as the locale date of the
dash-to-slash substituted string. -/
theorem formatDate_total_graceful (env : DateEnv) (raw : String) :
    (env.isValidDate raw = false →
      formatDateForLabelDisplay env raw = raw) ∧
    (env.isValidDate raw = true →
      formatDateForLabelDisplay env raw =
        env.toLocaleDateString (dashesToSlashes raw)) := by
  constructor <;> intro h <;> simp [formatDateForLabelDisplay, h]

/-- Witness for C9: an unparseable raw string passes through unchanged and a
parseable one is reformatted, in the sample date environment. -/
theorem formatDate_total_graceful_witness :
    formatDateForLabelDisplay sampleEnv "not-a-date" = "not-a-date" ∧
    formatDateForLabelDisplay sampleEnv "2020-01-15" =
      sampleEnv.toLocaleDateString (dashesToSlashes "2020-01-15") :=
  ⟨(formatDate_total_graceful sampleEnv "not-a-date").1 (by decide),
    (formatDate_total_graceful sampleEnv "2020-01-15").2 (by decide)⟩

end PolarisFilterControl
